import Mathlib

/-!
Verification of the f1recap fetch-pipeline core: session classification,
recap filtering, de-duplication, Grand-Prix-weekend grouping and archive
merging, as implemented in scripts/fetch-archive-2025.js and the two
fetcher variants (src/unnamed/part_001 and src/unnamed/part_004).

Modelling conventions:
* JS strings are Lean String; title matching is ASCII case folding plus
  substring containment, mirroring String.prototype.toLowerCase /
  String.prototype.includes on the ASCII titles this pipeline sees.
* A timestamp field holding an ISO-8601 string is modelled by its
  Date.parse value in milliseconds as an Option Int: none stands for a
  missing field or an unparseable string (Date.parse gives NaN).
* A JS Map is an insertion-ordered association list: set updates an
  existing key in place, otherwise appends; values() walks insertion order.
* Array.prototype.sort is stable, and every comparator used here induces a
  total preorder on records with valid timestamps, so the stable
  insertion sort used below computes the same list.
-/

namespace F1

/-- Does the first character list occur at the head of the second? -/
def leadsList : List Char → List Char → Bool
  | [], _ => true
  | _ :: _, [] => false
  | a :: as, b :: bs => a == b && leadsList as bs

/-- ASCII substring test on character lists: does `pat` occur as a
contiguous block of the other list? Mirrors String.prototype.includes. -/
def containsList (pat : List Char) : List Char → Bool
  | [] => pat.isEmpty
  | c :: rest => leadsList pat (c :: rest) || containsList pat rest

/-- String.prototype.includes: substring containment. -/
def containsB (hay pat : String) : Bool :=
  containsList pat.data hay.data

/-- String.prototype.toLowerCase restricted to ASCII, which covers every
keyword and title pattern used by the pipeline. -/
def lowerStr (s : String) : String :=
  ⟨s.data.map Char.toLower⟩

/-- Lookup in a JS Map modelled as an insertion-ordered association list. -/
def mapLookup (m : List (String × α)) (k : String) : Option α :=
  (m.find? (fun p => p.1 = k)).map (·.2)

/-- Map.prototype.set: update an existing key in place (keeping its
insertion position), otherwise append at the end. -/
def mapSet : List (String × α) → String → α → List (String × α)
  | [], k, v => [(k, v)]
  | (k₁, v₁) :: rest, k, v =>
    if k₁ = k then (k, v) :: rest else (k₁, v₁) :: mapSet rest k v

/-- Lexicographic comparator order: ascending in `f`, ties broken descending
in `g`; this is the total preorder induced by the JS comparator
`(a, b) => f(a) - f(b) || g(b) - g(a)`. -/
def lexLe (f : α → Nat) (g : α → Int) (a b : α) : Prop :=
  f a < f b ∨ (f a = f b ∧ g b ≤ g a)

instance (f : α → Nat) (g : α → Int) : DecidableRel (lexLe f g) :=
  fun a b => by unfold lexLe; exact inferInstance

instance (f : α → Nat) (g : α → Int) : IsTotal α (lexLe f g) :=
  ⟨by intro a b; unfold lexLe; omega⟩

instance (f : α → Nat) (g : α → Int) : IsTrans α (lexLe f g) :=
  ⟨by intro a b c hab hbc; unfold lexLe at *; omega⟩

/-- The session-type enumeration produced by getVideoTypeFromTitle. The JS
code uses the strings "fp1", …, "race-qualifying", "other". -/
inductive SessionType where
  | fp1 | fp2 | fp3
  | sprintQualifying | sprint
  | raceQualifying | qualifying
  | race | other
deriving DecidableEq, Repr

/-- F1ArchiveFetcher.getVideoTypeFromTitle (scripts/fetch-archive-2025.js,
lines 668-698): first-match-wins keyword chain on the lowercased title. -/
def getVideoTypeFromTitleArchive (title : String) : SessionType :=
  let t := lowerStr title
  if containsB t "fp1" || containsB t "practice 1" || containsB t "free practice 1" then .fp1
  else if containsB t "fp2" || containsB t "practice 2" || containsB t "free practice 2" then .fp2
  else if containsB t "fp3" || containsB t "practice 3" || containsB t "free practice 3" then .fp3
  else if containsB t "sprint" && (containsB t "qualifying" || containsB t "quali") then .sprintQualifying
  else if containsB t "sprint" then .sprint
  else if containsB t "race" && (containsB t "qualifying" || containsB t "quali") then .raceQualifying
  else if containsB t "qualifying" || containsB t "quali" then .qualifying
  else if containsB t "race" && !containsB t "practice" then .race
  else .other

/-- F1VideoFetcher.getVideoTypeFromTitle (src/unnamed/part_001, lines
288-311; identical in src/unnamed/part_004, lines 340-362): same chain but
rules 1 and 2 match only "fp1" / "fp2". -/
def getVideoTypeFromTitleFetcher (title : String) : SessionType :=
  let t := lowerStr title
  if containsB t "fp1" then .fp1
  else if containsB t "fp2" then .fp2
  else if containsB t "fp3" || containsB t "practice 3" || containsB t "free practice 3" then .fp3
  else if containsB t "sprint" && (containsB t "qualifying" || containsB t "quali") then .sprintQualifying
  else if containsB t "sprint" then .sprint
  else if containsB t "race" && (containsB t "qualifying" || containsB t "quali") then .raceQualifying
  else if containsB t "qualifying" || containsB t "quali" then .qualifying
  else if containsB t "race" && !containsB t "practice" then .race
  else .other

/-- this.includeKeywords (identical in all three fetch scripts). -/
def includeKeywords : List String :=
  ["highlights", "recap", "session",
   "full race", "full replay", "full qualifying", "extended highlights"]

/-- this.excludeKeywords (identical in scripts/fetch-archive-2025.js,
part_001 and part_004). -/
def excludeKeywords : List String :=
  ["f2", "formula 2", "post-race show", "post race show",
   "live:", "preview", "analysis", "interview", "press conference",
   "feature race", "f3", "formula 3", "porsche", "w series",
   "drivers react", "driver react", "react after", "reaction",
   "esports", "indycar", "nascar", "wrc", "dtm", "motogp",
   "team radio", "top 10", "best moments", "radio rewinds", "funniest",
   "kids", "challenge", "hot laps", "simulator", "sim", "gaming"]

/-- The F1-context token list used inline by filterRecapVideos. -/
def f1ContextKeywords : List String :=
  ["grand prix", "gp", "formula 1", "f1"]

/-- A raw search-result item `{id: {videoId}, snippet: {...}}`. An absent or
empty videoId is modelled as "" (both are falsy in JS); publishedAt is the
Date.parse value, none when missing or unparseable; the thumbnail URL is
pre-resolved (`thumbnails.high?.url || thumbnails.default?.url || ""`). -/
structure Video where
  videoId : String
  title : String
  description : String
  publishedAt : Option Int
  thumbnail : String
deriving DecidableEq, Repr

/-- A stored video record `{videoId, title, description, publishedAt,
thumbnail}` as written into a weekend group. -/
structure VideoRec where
  videoId : String
  title : String
  description : String
  publishedAt : Option Int
  thumbnail : String
deriving DecidableEq, Repr

/-- A Grand-Prix weekend group `{name, videos, latestDate}`. latestDate is
the Date.parse value of the stored ISO string, none for null. -/
structure Weekend where
  name : String
  videos : List VideoRec
  latestDate : Option Int
deriving DecidableEq, Repr

/-- The persisted artifact root `{lastUpdated, totalVideos,
grandPrixWeekends, year?}`. lastUpdated is modelled by its timestamp. -/
structure VideoData where
  lastUpdated : Option Int
  totalVideos : Nat
  grandPrixWeekends : List Weekend
  year : Option String
deriving DecidableEq, Repr

/-- The per-element predicate of F1ArchiveFetcher.filterRecapVideos
(scripts/fetch-archive-2025.js, lines 194-222). Excludes are checked on the
title only in this variant. -/
def isRecapArchive (video : Video) : Bool :=
  let title := lowerStr video.title
  let description := lowerStr video.description
  let videoType := getVideoTypeFromTitleArchive title
  let shouldExclude := excludeKeywords.any (fun keyword => containsB title keyword)
  if shouldExclude then false
  else if videoType = .other then false
  else
    let hasIncludeKeyword := includeKeywords.any (fun keyword =>
      containsB title keyword || containsB description keyword)
    let isF1Context := f1ContextKeywords.any (fun keyword =>
      containsB title keyword || containsB description keyword)
    hasIncludeKeyword && isF1Context

/-- F1ArchiveFetcher.filterRecapVideos, archive variant. -/
def filterRecapVideosArchive (videos : List Video) : List Video :=
  videos.filter isRecapArchive

/-- The per-element predicate of F1VideoFetcher.filterRecapVideos
(src/unnamed/part_001, lines 128-159). Excludes are checked on title and
description in this variant. -/
def isRecapFetcher (video : Video) : Bool :=
  let title := lowerStr video.title
  let description := lowerStr video.description
  let videoType := getVideoTypeFromTitleFetcher title
  let shouldExclude := excludeKeywords.any (fun keyword =>
    containsB title keyword || containsB description keyword)
  if shouldExclude then false
  else if videoType = .other then false
  else
    let hasIncludeKeyword := includeKeywords.any (fun keyword =>
      containsB title keyword || containsB description keyword)
    let isF1Context := f1ContextKeywords.any (fun keyword =>
      containsB title keyword || containsB description keyword)
    hasIncludeKeyword && isF1Context

/-- F1VideoFetcher.filterRecapVideos, current-feed variant. -/
def filterRecapVideosFetcher (videos : List Video) : List Video :=
  videos.filter isRecapFetcher

/-- Global de-dupe by videoId (scripts/fetch-archive-2025.js, lines 72-81;
identical in src/unnamed/part_004, lines 110-119): first-seen-wins into an
insertion-ordered Map, skipping items whose videoId is missing or "" (falsy),
then `Array.from(uniqueMap.values())`. -/
def dedupeVideos (videos : List Video) : List Video :=
  (videos.foldl (fun uniqueMap v =>
      if v.videoId = "" then uniqueMap
      else if (mapLookup uniqueMap v.videoId).isSome then uniqueMap
      else mapSet uniqueMap v.videoId v) []).map (·.2)

/-- Proof-friendly reformulation of dedupeVideos carrying the set of
already-seen ids; proved equal to dedupeVideos below. -/
def dedupeGo (seen : List String) : List Video → List Video
  | [] => []
  | v :: vs =>
    if v.videoId = "" ∨ v.videoId ∈ seen then dedupeGo seen vs
    else v :: dedupeGo (v.videoId :: seen) vs

/-- Tie-break timestamp for the in-group comparators
`new Date(b.publishedAt) - new Date(a.publishedAt)`. A record with an
unparseable date makes the JS comparator return NaN, which Array.sort
treats as 0 (engine-dependent ordering); every record the pipeline stores
has a parseable date, and none of the theorems below depend on this
default. -/
def tsKey (v : VideoRec) : Int :=
  v.publishedAt.getD 0

/-- The fixed orderMap of F1ArchiveFetcher.sortVideosInGroup
(scripts/fetch-archive-2025.js, lines 225-235; same table in
src/unnamed/part_004, lines 253-263). -/
def orderMapArchive : SessionType → Nat
  | .fp1 => 10
  | .fp2 => 20
  | .fp3 => 30
  | .qualifying => 40
  | .sprintQualifying => 50
  | .sprint => 60
  | .raceQualifying => 70
  | .race => 80
  | .other => 99

/-- F1ArchiveFetcher.sortVideosInGroup (scripts/fetch-archive-2025.js,
lines 224-247): stable sort ascending by the fixed table, newest first on
ties. -/
def sortVideosInGroup (videos : List VideoRec) : List VideoRec :=
  List.insertionSort
    (lexLe (fun v => orderMapArchive (getVideoTypeFromTitleArchive v.title)) tsKey) videos

/-- The within-group sort of src/unnamed/part_004 (lines 249-273): the same
fixed table (via `orderMap[t] || 99`, identical on these values), but with
the part_004 classifier. -/
def sortVideosInGroup04 (videos : List VideoRec) : List VideoRec :=
  List.insertionSort
    (lexLe (fun v => orderMapArchive (getVideoTypeFromTitleFetcher v.title)) tsKey) videos

/-- Does the weekend contain a sprint-classified video?
(src/unnamed/part_001, lines 213-215). -/
def hasSprint01 (videos : List VideoRec) : Bool :=
  videos.any (fun video => getVideoTypeFromTitleFetcher video.title = .sprint)

/-- The sprint-aware sessionOrder table of src/unnamed/part_001
(lines 223-242); unmapped types get 999. -/
def sessionOrder01 (hasSprint : Bool) : SessionType → Nat :=
  if hasSprint then fun t =>
    match t with
    | .fp1 => 0
    | .sprint => 1
    | .sprintQualifying => 2
    | .race => 3
    | .raceQualifying => 4
    | .fp2 => 5
    | .qualifying => 6
    | _ => 999
  else fun t =>
    match t with
    | .fp1 => 0
    | .fp2 => 1
    | .qualifying => 2
    | .race => 3
    | _ => 999

/-- The within-group sort of F1VideoFetcher.groupVideosByGrandPrix
(src/unnamed/part_001, lines 211-254): sprint-aware table, ties newest
first. -/
def sortVideosInGroup01 (videos : List VideoRec) : List VideoRec :=
  let hs := hasSprint01 videos
  List.insertionSort
    (lexLe (fun v => sessionOrder01 hs (getVideoTypeFromTitleFetcher v.title)) tsKey) videos

/-- Descending order by an Int key (comparator `(a, b) => k(b) - k(a)`). -/
def descBy (k : α → Int) (a b : α) : Prop :=
  k b ≤ k a

instance (k : α → Int) : DecidableRel (descBy k) :=
  fun a b => by unfold descBy; exact inferInstance

instance (k : α → Int) : IsTotal α (descBy k) :=
  ⟨by intro a b; unfold descBy; omega⟩

instance (k : α → Int) : IsTrans α (descBy k) :=
  ⟨by intro a b c hab hbc; unfold descBy at *; omega⟩

/-- Ascending order by an Int key (comparator `(a, b) => k(a) - k(b)`). -/
def ascBy (k : α → Int) (a b : α) : Prop :=
  k a ≤ k b

instance (k : α → Int) : DecidableRel (ascBy k) :=
  fun a b => by unfold ascBy; exact inferInstance

instance (k : α → Int) : IsTotal α (ascBy k) :=
  ⟨by intro a b; unfold ascBy; omega⟩

instance (k : α → Int) : IsTrans α (ascBy k) :=
  ⟨by intro a b c hab hbc; unfold ascBy at *; omega⟩

/-- The value of `Date.parse(0)`: the number 0 is coerced to the string
"0", which V8 parses as 2000-01-01T00:00:00 (timezone-dependent; UTC value
given). Used only as the sort key of a weekend whose latestDate is null;
no theorem below depends on this value. -/
def dateParseOfZero : Int := 946684800000

/-- Sort key `Date.parse(g.latestDate || 0)` used when ordering merged
weekend lists. -/
def latestKey (g : Weekend) : Int :=
  g.latestDate.getD dateParseOfZero

/-- `videos.map(v => Date.parse(v.publishedAt)).filter(not NaN).sort(desc)[0]`:
the largest valid timestamp of a video list (src/unnamed/part_001,
lines 386-390). -/
def latestOf (videos : List VideoRec) : Option Int :=
  (videos.filterMap (·.publishedAt)).max?

/-- The video-accumulation loop of addGp inside mergeArchives
(src/unnamed/part_001, lines 378-384): walk the incoming list, appending
each video whose id is truthy and not already present. The JS code keeps a
`seen` Set initialised from the ids already in `base`; since every stored
video has a nonempty id, that Set always equals the ids of the
accumulator, so the membership test below is the same test. -/
def mergeStepVideos (base : List VideoRec) (vs : List VideoRec) : List VideoRec :=
  vs.foldl (fun acc v =>
    if v.videoId ≠ "" ∧ ∀ w ∈ acc, w.videoId ≠ v.videoId then acc ++ [v] else acc) base

/-- One addGp application to the weekend stored under gp.name
(src/unnamed/part_001, lines 373-396): merge videos, then recompute
latestDate — but only when the recomputed maximum is truthy (`if (latest)`),
so an absent maximum or the epoch value 0 leaves latestDate unchanged. -/
def mergeStep (base? : Option Weekend) (gp : Weekend) : Weekend :=
  let base := base?.getD ⟨gp.name, [], none⟩
  let videos := mergeStepVideos base.videos gp.videos
  let latestDate :=
    match latestOf videos with
    | some t => if t ≠ 0 then some t else base.latestDate
    | none => base.latestDate
  { base with videos := videos, latestDate := latestDate }

/-- addGp of F1VideoFetcher.mergeArchives: skip groups with a falsy name,
otherwise merge into the byName Map. -/
def addGp (byName : List (String × Weekend)) (gp : Weekend) : List (String × Weekend) :=
  if gp.name = "" then byName
  else mapSet byName gp.name (mergeStep (mapLookup byName gp.name) gp)

/-- F1VideoFetcher.mergeArchives (src/unnamed/part_001, lines 370-406):
fold existing then incoming weekends into the byName Map, then sort the
values by latestDate descending. -/
def mergeArchives (existing incoming : List Weekend) : List Weekend :=
  let byName := (existing ++ incoming).foldl addGp []
  List.insertionSort (descBy latestKey) (byName.map (·.2))

/-- `merged.reduce((sum, gp) => sum + gp.videos.length, 0)`. -/
def sumVideos (groups : List Weekend) : Nat :=
  groups.foldl (fun sum gp => sum + gp.videos.length) 0

/-- F1ArchiveFetcher.mergePreservedGroups (scripts/fetch-archive-2025.js,
lines 637-662): build a byName Map of the fetched groups, let preserved
groups fill missing names or (with preferPreserved and a nonempty video
list) replace fetched ones, then return `fetchedGroups.map(g =>
byName.get(g.name) || g)`. -/
def mergePreservedGroups (fetchedGroups preserved : List Weekend)
    (preferPreserved : Bool) : List Weekend :=
  if preserved.isEmpty then fetchedGroups
  else
    let byName := preserved.foldl (fun m gp =>
        if gp.name = "" then m
        else
          match mapLookup m gp.name with
          | none => mapSet m gp.name gp
          | some _ =>
            if preferPreserved && !gp.videos.isEmpty then mapSet m gp.name gp else m)
      (fetchedGroups.foldl (fun m g => mapSet m g.name g) [])
    fetchedGroups.map (fun g => (mapLookup byName g.name).getD g)

/-- F1ArchiveFetcher.mergePreservedGroups of src/unnamed/part_004
(lines 319-334): preserved groups only fill missing names; the result is
all Map values sorted ascending by `Date.parse(latestDate || startDate ||
0)` (weekend groups carry no startDate field). -/
def mergePreservedGroups04 (fetchedGroups preserved : List Weekend) : List Weekend :=
  if preserved.isEmpty then fetchedGroups
  else
    let byName := preserved.foldl (fun m gp =>
        if (mapLookup m gp.name).isSome then m else mapSet m gp.name gp)
      (fetchedGroups.foldl (fun m g => mapSet m g.name g) [])
    List.insertionSort (ascBy latestKey) (byName.map (·.2))

/-- The record pushed into a weekend group. -/
def mkRec (video : Video) : VideoRec :=
  ⟨video.videoId, video.title, video.description, video.publishedAt, video.thumbnail⟩

/-- `publishDate > group.latestDate` on two Date values: false whenever
either is invalid (NaN comparison). -/
def laterThan (publishDate latestDate : Option Int) : Bool :=
  match publishDate, latestDate with
  | some a, some b => decide (b < a)
  | _, _ => false

/-- F1ArchiveFetcher.groupVideosByGrandPrix of src/unnamed/part_004
(lines 210-277) with the regex name extraction abstracted as a function
parameter: bucket videos by extracted name into an insertion-ordered Map,
tracking latestDate, then sort groups ascending by date key and each
group's videos by the fixed session table. -/
def groupVideosByGrandPrix04 (extractName : String → String)
    (videos : List Video) : List Weekend :=
  let m := videos.foldl (fun grandPrixGroups video =>
    let grandPrixName := extractName video.title
    let publishDate := video.publishedAt
    let grandPrixGroups :=
      if (mapLookup grandPrixGroups grandPrixName).isNone then
        mapSet grandPrixGroups grandPrixName ⟨grandPrixName, [], publishDate⟩
      else grandPrixGroups
    match mapLookup grandPrixGroups grandPrixName with
    | none => grandPrixGroups
    | some group =>
      let group := { group with videos := group.videos ++ [mkRec video] }
      let group :=
        if laterThan publishDate group.latestDate then
          { group with latestDate := publishDate }
        else group
      mapSet grandPrixGroups grandPrixName group) []
  let sortedGroups := List.insertionSort (ascBy latestKey) (m.map (·.2))
  sortedGroups.map (fun group => { group with videos := sortVideosInGroup04 group.videos })

/-- The artifact written by part_004 fetchArchive (lines 124-136):
totalVideos is set to `filteredVideos.length`, not to a sum over the merged
weekend list. -/
def part004VideoData (now : Int) (extractName : String → String)
    (filteredVideos : List Video) (preservedGroups : List Weekend) : VideoData :=
  let groupedVideos := groupVideosByGrandPrix04 extractName filteredVideos
  let mergedGroups := mergePreservedGroups04 groupedVideos preservedGroups
  { lastUpdated := some now
    totalVideos := filteredVideos.length
    grandPrixWeekends := mergedGroups
    year := some "2025" }

/-- The artifact written by F1ArchiveFetcher.fetchArchive
(scripts/fetch-archive-2025.js, lines 103-113): totalVideos is the reduce
sum over the merged groups. -/
def archive2025VideoData (now : Int) (mergedGroups : List Weekend) : VideoData :=
  { lastUpdated := some now
    totalVideos := sumVideos mergedGroups
    grandPrixWeekends := mergedGroups
    year := some "2025" }

/-- A season-calendar entry; startDate is the Date.parse value of the
calendar startDate string (assumed parseable, as the calendar files are). -/
structure CalendarEntry where
  name : String
  startDate : Int
deriving DecidableEq, Repr

/-- A pre-computed weekend window (buildWeekendWindows output). -/
structure WeekendWindow where
  name : String
  start : Int
  windowStart : Int
  windowEnd : Int
deriving DecidableEq, Repr

/-- The window configuration: YT_WINDOW_START_DAYS (default -1) and
YT_WINDOW_END_DAYS (default 3). -/
structure WindowConfig where
  windowStartDays : Int
  windowEndDays : Int
deriving Repr

def oneDayMs : Int := 24 * 60 * 60 * 1000

/-- F1ArchiveFetcher.buildWeekendWindows (scripts/fetch-archive-2025.js,
lines 409-422). -/
def buildWeekendWindows (cfg : WindowConfig) (calendarEntries : List CalendarEntry)
    (year : Nat) : List WeekendWindow :=
  calendarEntries.map fun entry =>
    { name := toString year ++ " " ++ entry.name
      start := entry.startDate
      windowStart := entry.startDate + cfg.windowStartDays * oneDayMs
      windowEnd := entry.startDate + cfg.windowEndDays * oneDayMs }

/-- `ts >= w.windowStart && ts <= w.windowEnd`. -/
def inWindow (w : WeekendWindow) (ts : Int) : Bool :=
  decide (w.windowStart ≤ ts) && decide (ts ≤ w.windowEnd)

/-- The mutable state of the calendar-window grouping loop: the byName Map
of weekend groups and the per-weekend Sets of already-assigned video ids. -/
structure GroupingState where
  byName : List (String × Weekend)
  seen : List (String × List String)
deriving Repr

/-- Push one record into a group and refresh latestDate
(scripts/fetch-archive-2025.js, lines 581-586): `const prev = latestDate ?
parse(latestDate) : null; if (!prev || ts > prev) latestDate = ISO(ts)`. -/
def pushRecord (group : Weekend) (ts : Int) (record : VideoRec) : Weekend :=
  let group := { group with videos := group.videos ++ [record] }
  let latestDate :=
    match group.latestDate with
    | none => some ts
    | some prev => if prev = 0 ∨ prev < ts then some ts else some prev
  { group with latestDate := latestDate }

/-- The body of the per-video loop of groupVideosByCalendarWindow
(scripts/fetch-archive-2025.js, lines 555-587). -/
def processVideo (weekends : List WeekendWindow) (st : GroupingState)
    (video : Video) : GroupingState :=
  match video.publishedAt with
  | none => st
  | some ts =>
    match weekends.find? (fun w => inWindow w ts) with
    | none => st
    | some weekend =>
      match mapLookup st.byName weekend.name with
      | none => st
      | some group =>
        if video.videoId = "" then st
        else
          match mapLookup st.seen weekend.name with
          | some seenSet =>
            if video.videoId ∈ seenSet then st
            else
              { byName := mapSet st.byName weekend.name
                  (pushRecord group ts (mkRec video))
                seen := mapSet st.seen weekend.name (seenSet ++ [video.videoId]) }
          | none =>
            { byName := mapSet st.byName weekend.name
                (pushRecord group ts (mkRec video))
              seen := st.seen }

/-- The pre-created maps of groupVideosByCalendarWindow: one empty bucket
and one empty seen-Set per calendar weekend (scripts/fetch-archive-2025.js,
lines 543-553). -/
def initialState (weekends : List WeekendWindow) : GroupingState :=
  ⟨weekends.foldl (fun m w => mapSet m w.name ⟨w.name, [], none⟩) [],
   weekends.foldl (fun m w => mapSet m w.name []) []⟩

/-- The state after the per-video loop of groupVideosByCalendarWindow. -/
def finalState (weekends : List WeekendWindow) (videos : List Video) : GroupingState :=
  videos.foldl (processVideo weekends) (initialState weekends)

/-- The final per-bucket pass `this.sortVideosInGroup(group.videos)` applied
to a stored weekend group. -/
def sortGroup (g : Weekend) : Weekend :=
  { g with videos := sortVideosInGroup g.videos }

/-- F1ArchiveFetcher.groupVideosByCalendarWindow
(scripts/fetch-archive-2025.js, lines 540-595): pre-create one empty bucket
and one empty seen-Set per calendar weekend, assign each video to the first
window containing its timestamp, sort each bucket, and return the buckets
in calendar order. The year field is the constant string "2025". -/
def groupVideosByCalendarWindow (cfg : WindowConfig) (videos : List Video)
    (calendarEntries : List CalendarEntry) : List Weekend :=
  let weekends := buildWeekendWindows cfg calendarEntries 2025
  let stF := finalState weekends videos
  let byNameSorted := stF.byName.map (fun kv => (kv.1, sortGroup kv.2))
  weekends.map (fun w => (mapLookup byNameSorted w.name).getD ⟨w.name, [], none⟩)

/-- The video bucket stored under key k (empty when the key is absent,
which the initialisation rules out for calendar weekend names). -/
def bucketOf (st : GroupingState) (k : String) : List VideoRec :=
  ((mapLookup st.byName k).getD ⟨k, [], none⟩).videos

/-- Invariant of the grouping loop after processing a prefix of the video
list: every byName entry is keyed by its group name; every calendar
weekend name is covered by both maps; every stored record is the record of
some processed video whose timestamp fell in some window, filed under the
FIRST such window; and every seen id comes from a processed video. -/
def GInv (weekends : List WeekendWindow) (processed : List Video)
    (st : GroupingState) : Prop :=
  (∀ p ∈ st.byName, p.2.name = p.1)
  ∧ (∀ w ∈ weekends, (mapLookup st.byName w.name).isSome = true)
  ∧ (∀ w ∈ weekends, (mapLookup st.seen w.name).isSome = true)
  ∧ (∀ p ∈ st.byName, ∀ r ∈ p.2.videos, ∃ u ∈ processed,
      r = mkRec u ∧ ∃ ts, u.publishedAt = some ts
        ∧ ∃ w, weekends.find? (fun w2 => inWindow w2 ts) = some w ∧ w.name = p.1)
  ∧ (∀ q ∈ st.seen, ∀ id ∈ q.2, ∃ u ∈ processed, u.videoId = id)

/-- The two artifacts the current-feed fetcher owns: public/data/videos.json
and public/data/videos-{year}.json, each none when the file is absent (or
unreadable, which the code treats the same way). File contents are
abstracted by the parsed artifact value. -/
structure SiteFiles where
  current : Option VideoData
  archive : Option VideoData
deriving DecidableEq, Repr

/-- F1VideoFetcher.preserveExistingData (src/unnamed/part_001, lines
324-345): re-read the current artifact and write the identical bytes back
(also re-writing the archive if present); if the read fails, write
nothing. In either case the stored contents are unchanged. -/
def preserveExistingData (st : SiteFiles) : SiteFiles :=
  match st.current with
  | some c => { current := some c, archive := st.archive }
  | none => st

/-- F1VideoFetcher.buildArchive (src/unnamed/part_001, lines 347-368): merge
the existing archive (treated as empty when absent or unreadable) with the
full grouped set and derive totalVideos as the reduce sum. -/
def buildArchive (now : Int) (st : SiteFiles) (fullGrouped : List Weekend) : VideoData :=
  let existingWeekends :=
    match st.archive with
    | some existing => existing.grandPrixWeekends
    | none => []
  let merged := mergeArchives existingWeekends fullGrouped
  { lastUpdated := some now
    totalVideos := sumVideos merged
    grandPrixWeekends := merged
    year := none }

/-- The tail of F1VideoFetcher.fetchVideos (src/unnamed/part_001, lines
92-120) after grouping: trim to the homepage window, and either preserve
the existing artifacts (zero weekends) or write the current feed and the
merged archive. Result: the new file state, the process exit code, and
whether the empty-fetch warning was logged. -/
def fetchVideosRun (latestWindow : Nat) (now : Int) (fullGrouped : List Weekend)
    (st : SiteFiles) : SiteFiles × Nat × Bool :=
  let groupedVideos := fullGrouped.take latestWindow
  let visibleVideos := sumVideos groupedVideos
  if groupedVideos.length = 0 then
    (preserveExistingData st, 0, true)
  else
    let videoData : VideoData :=
      { lastUpdated := some now
        totalVideos := visibleVideos
        grandPrixWeekends := groupedVideos
        year := none }
    let archiveData := buildArchive now st fullGrouped
    ({ current := some videoData, archive := some archiveData }, 0, false)

end F1

namespace F1

theorem char_toLower_idem (c : Char) : c.toLower.toLower = c.toLower := by
  unfold Char.toLower
  by_cases h : c.toNat ≥ 65 ∧ c.toNat ≤ 90
  · rw [if_pos h]
    have hv : (c.toNat + 32).isValidChar := Or.inl (by omega)
    have ht : (Char.ofNat (c.toNat + 32)).toNat = c.toNat + 32 := by
      unfold Char.ofNat
      rw [dif_pos hv]
      simp [Char.ofNatAux, Char.toNat, UInt32.toNat]
    rw [if_neg (by omega)]
  · rw [if_neg h, if_neg h]

theorem lowerStr_idem (s : String) : lowerStr (lowerStr s) = lowerStr s := by
  unfold lowerStr
  congr 1
  show (s.data.map Char.toLower).map Char.toLower = s.data.map Char.toLower
  rw [List.map_map]
  exact List.map_congr_left (fun c _ => char_toLower_idem c)

theorem getVideoTypeFromTitleArchive_lower (title : String) :
    getVideoTypeFromTitleArchive (lowerStr title) = getVideoTypeFromTitleArchive title := by
  unfold getVideoTypeFromTitleArchive
  rw [lowerStr_idem]

theorem getVideoTypeFromTitleFetcher_lower (title : String) :
    getVideoTypeFromTitleFetcher (lowerStr title) = getVideoTypeFromTitleFetcher title := by
  unfold getVideoTypeFromTitleFetcher
  rw [lowerStr_idem]

theorem preserveExistingData_eq (st : SiteFiles) : preserveExistingData st = st := by
  unfold preserveExistingData
  cases st with
  | mk current archive => cases current <;> rfl

/-- C1: for every run in which the grouping pass yields zero weekends, the
fetcher leaves the previously published artifacts untouched (the
preserve-on-empty guard re-writes the identical contents), logs the
warning, and the process completes with exit code 0. -/
theorem fetchVideos_preserves_on_empty (latestWindow : Nat) (now : Int)
    (fullGrouped : List Weekend) (st : SiteFiles) (h : fullGrouped = []) :
    fetchVideosRun latestWindow now fullGrouped st = (st, 0, true) := by
  subst h
  unfold fetchVideosRun
  simp [preserveExistingData_eq]

theorem fetchVideos_preserves_on_empty_witness :
    fetchVideosRun 3 1756000000000 []
        ⟨some ⟨some 1755000000000, 2,
            [⟨"2025 Monaco Grand Prix",
              [⟨"vid1", "Race Highlights | 2025 Monaco Grand Prix", "", some 1748196000000, ""⟩,
               ⟨"vid2", "Qualifying Highlights | 2025 Monaco Grand Prix", "", some 1748109600000, ""⟩],
              some 1748196000000⟩], none⟩,
          none⟩ =
      (⟨some ⟨some 1755000000000, 2,
            [⟨"2025 Monaco Grand Prix",
              [⟨"vid1", "Race Highlights | 2025 Monaco Grand Prix", "", some 1748196000000, ""⟩,
               ⟨"vid2", "Qualifying Highlights | 2025 Monaco Grand Prix", "", some 1748109600000, ""⟩],
              some 1748196000000⟩], none⟩,
          none⟩, 0, true) :=
  fetchVideos_preserves_on_empty 3 1756000000000 [] _ rfl

/-- C2: the part_004 archive fetcher writes `totalVideos:
filteredVideos.length`; in a missing-only run where every weekend is
preserved (zero newly filtered videos, one preserved weekend holding one
video) the written artifact has totalVideos = 0 while the sum over
grandPrixWeekends[].videos.length is 1, violating the stated invariant. -/
theorem part004_totalVideos_failing_eval :
    (part004VideoData 0 (fun _ => "Unknown Grand Prix") []
        [⟨"2025 Monaco Grand Prix",
          [⟨"vidA", "Race Highlights | 2025 Monaco Grand Prix", "", some 1748196000000, ""⟩],
          some 1748196000000⟩]).totalVideos = 0
    ∧ sumVideos (part004VideoData 0 (fun _ => "Unknown Grand Prix") []
        [⟨"2025 Monaco Grand Prix",
          [⟨"vidA", "Race Highlights | 2025 Monaco Grand Prix", "", some 1748196000000, ""⟩],
          some 1748196000000⟩]).grandPrixWeekends = 1 :=
  ⟨rfl, rfl⟩

/-- C5: a preserved weekend whose name has no fetched counterpart is
inserted into the working byName Map but dropped from the returned list,
because mergePreservedGroups returns `fetchedGroups.map(g =>
byName.get(g.name) || g)`: with no fetched groups the output is empty in
both preferPreserved modes, so the preserved weekend never appears. -/
theorem mergePreservedGroups_gap_dropped_eval :
    mergePreservedGroups []
        [⟨"2025 Monaco Grand Prix",
          [⟨"vidB", "Race Highlights | 2025 Monaco Grand Prix", "", some 1748196000000, ""⟩],
          some 1748196000000⟩] false = []
    ∧ mergePreservedGroups []
        [⟨"2025 Monaco Grand Prix",
          [⟨"vidB", "Race Highlights | 2025 Monaco Grand Prix", "", some 1748196000000, ""⟩],
          some 1748196000000⟩] true = [] :=
  ⟨rfl, rfl⟩

/-- C7 counterexample: the title "Grand Prix Highlights | F1" reaches rule
8 (no earlier rule matches), contains "grand prix" and not "practice", yet
both classifier variants return `other`, not `race`: rule 8 tests only the
substring "race", which "grand prix" does not contain. -/
theorem classifier_grand_prix_counterexample :
    getVideoTypeFromTitleArchive "Grand Prix Highlights | F1" = .other
    ∧ getVideoTypeFromTitleFetcher "Grand Prix Highlights | F1" = .other
    ∧ containsB (lowerStr "Grand Prix Highlights | F1") "grand prix" = true
    ∧ containsB (lowerStr "Grand Prix Highlights | F1") "race" = false
    ∧ containsB (lowerStr "Grand Prix Highlights | F1") "practice" = false := by
  decide

/-- C7 amended: for every title that reaches rule 8 of either classifier
(none of the rule 1-7 conditions of that classifier match; the archive
conditions listed here imply the part_001 conditions), the classifier
returns `race` exactly when the title contains "race" (case-insensitively)
and does not contain "practice". There is no "grand prix" alternative: a
title containing "grand prix" but not "race" falls through to `other`. -/
theorem classifier_rule8_amended (title : String)
    (h1 : (containsB (lowerStr title) "fp1" || containsB (lowerStr title) "practice 1"
            || containsB (lowerStr title) "free practice 1") = false)
    (h2 : (containsB (lowerStr title) "fp2" || containsB (lowerStr title) "practice 2"
            || containsB (lowerStr title) "free practice 2") = false)
    (h3 : (containsB (lowerStr title) "fp3" || containsB (lowerStr title) "practice 3"
            || containsB (lowerStr title) "free practice 3") = false)
    (h5 : containsB (lowerStr title) "sprint" = false)
    (h7 : (containsB (lowerStr title) "qualifying" || containsB (lowerStr title) "quali")
            = false) :
    (getVideoTypeFromTitleArchive title = .race
      ↔ (containsB (lowerStr title) "race" = true
          ∧ containsB (lowerStr title) "practice" = false))
    ∧ (getVideoTypeFromTitleFetcher title = .race
      ↔ (containsB (lowerStr title) "race" = true
          ∧ containsB (lowerStr title) "practice" = false)) := by
  have h1f : containsB (lowerStr title) "fp1" = false := by
    revert h1; cases containsB (lowerStr title) "fp1" <;> simp
  have h2f : containsB (lowerStr title) "fp2" = false := by
    revert h2; cases containsB (lowerStr title) "fp2" <;> simp
  refine ⟨?_, ?_⟩
  · unfold getVideoTypeFromTitleArchive
    simp only [h1, h2, h3, h5, h7, Bool.false_and, Bool.and_false, Bool.false_eq_true,
      if_false]
    cases hr : containsB (lowerStr title) "race" <;>
      cases hp : containsB (lowerStr title) "practice" <;> simp_all
  · unfold getVideoTypeFromTitleFetcher
    simp only [h1f, h2f, h3, h5, h7, Bool.false_and, Bool.and_false, Bool.false_eq_true,
      if_false]
    cases hr : containsB (lowerStr title) "race" <;>
      cases hp : containsB (lowerStr title) "practice" <;> simp_all

theorem classifier_rule8_amended_witness :
    getVideoTypeFromTitleArchive "Extended Race Highlights | F1" = .race
    ∧ getVideoTypeFromTitleFetcher "Extended Race Highlights | F1" = .race :=
  ⟨(classifier_rule8_amended "Extended Race Highlights | F1" (by decide) (by decide)
      (by decide) (by decide) (by decide)).1.mpr (by decide),
   (classifier_rule8_amended "Extended Race Highlights | F1" (by decide) (by decide)
      (by decide) (by decide) (by decide)).2.mpr (by decide)⟩

/-- C8: both content-filter variants reject a video whose title classifies
as `other`: the filter computes the session type of the (lowercased) title
and returns false when it is `other`, before any include-keyword or
F1-context check can accept it (and the exclude phase can only reject). -/
theorem filter_rejects_other (video : Video) :
    (getVideoTypeFromTitleArchive video.title = .other → isRecapArchive video = false)
    ∧ (getVideoTypeFromTitleFetcher video.title = .other → isRecapFetcher video = false) := by
  constructor
  · intro h
    simp [isRecapArchive, getVideoTypeFromTitleArchive_lower, h]
  · intro h
    simp [isRecapFetcher, getVideoTypeFromTitleFetcher_lower, h]

theorem filter_rejects_other_witness :
    isRecapArchive ⟨"idX", "Paddock Pass | F1", "highlights from the grand prix",
        some 1748196000000, ""⟩ = false
    ∧ isRecapFetcher ⟨"idX", "Paddock Pass | F1", "highlights from the grand prix",
        some 1748196000000, ""⟩ = false :=
  ⟨(filter_rejects_other _).1 (by decide), (filter_rejects_other _).2 (by decide)⟩

/-- C6 counterexample: a sprint weekend holding a sprint, a race and a
race-qualifying video. The part_001 sprint-aware table ranks race (3)
before race-qualifying (4), so the sorted order is Sprint, Race,
Race-Qualifying — not the claimed FP1→Sprint→Sprint-Quali→Race-Quali→Race
order, which would put the race-qualifying video before the race video. -/
theorem sprint_sort_counterexample :
    sortVideosInGroup01
        [⟨"q", "Race Qualifying Highlights | F1", "", some 1, ""⟩,
         ⟨"r", "Race Highlights | F1", "", some 2, ""⟩,
         ⟨"s", "Sprint Highlights | F1", "", some 3, ""⟩]
      = [⟨"s", "Sprint Highlights | F1", "", some 3, ""⟩,
         ⟨"r", "Race Highlights | F1", "", some 2, ""⟩,
         ⟨"q", "Race Qualifying Highlights | F1", "", some 1, ""⟩]
    ∧ sortVideosInGroup01
        [⟨"q", "Race Qualifying Highlights | F1", "", some 1, ""⟩,
         ⟨"r", "Race Highlights | F1", "", some 2, ""⟩,
         ⟨"s", "Sprint Highlights | F1", "", some 3, ""⟩]
      ≠ [⟨"s", "Sprint Highlights | F1", "", some 3, ""⟩,
         ⟨"q", "Race Qualifying Highlights | F1", "", some 1, ""⟩,
         ⟨"r", "Race Highlights | F1", "", some 2, ""⟩]
    ∧ hasSprint01
        [⟨"q", "Race Qualifying Highlights | F1", "", some 1, ""⟩,
         ⟨"r", "Race Highlights | F1", "", some 2, ""⟩,
         ⟨"s", "Sprint Highlights | F1", "", some 3, ""⟩] = true
    ∧ getVideoTypeFromTitleFetcher "Race Highlights | F1" = .race
    ∧ getVideoTypeFromTitleFetcher "Race Qualifying Highlights | F1" = .raceQualifying
    ∧ getVideoTypeFromTitleFetcher "Sprint Highlights | F1" = .sprint := by
  refine ⟨by decide, by decide, by decide, by decide, by decide, by decide⟩

/-- C6 amended: the part_001 within-weekend sort is a stable sort of the
group by the sprint-aware table when the weekend has a sprint-classified
video — which ranks FP1 before Sprint before Sprint-Qualifying before Race
before Race-Qualifying (race BEFORE race-qualifying, then FP2 and
Qualifying) — and by FP1→FP2→Qualifying→Race otherwise; the part_004
variant computes hasSprint but sorts every weekend by the single fixed
table FP1→FP2→FP3→Qualifying→Sprint-Quali→Sprint→Race-Quali→Race. Ties
are broken newest-first. -/
theorem sprint_sort_order_amended :
    (∀ videos : List VideoRec,
        (sortVideosInGroup01 videos).Perm videos
        ∧ List.Sorted
            (lexLe (fun v => sessionOrder01 (hasSprint01 videos)
                (getVideoTypeFromTitleFetcher v.title)) tsKey)
            (sortVideosInGroup01 videos))
    ∧ (∀ videos : List VideoRec,
        (sortVideosInGroup04 videos).Perm videos
        ∧ List.Sorted
            (lexLe (fun v => orderMapArchive (getVideoTypeFromTitleFetcher v.title)) tsKey)
            (sortVideosInGroup04 videos))
    ∧ sessionOrder01 true .fp1 < sessionOrder01 true .sprint
    ∧ sessionOrder01 true .sprint < sessionOrder01 true .sprintQualifying
    ∧ sessionOrder01 true .sprintQualifying < sessionOrder01 true .race
    ∧ sessionOrder01 true .race < sessionOrder01 true .raceQualifying
    ∧ sessionOrder01 false .fp1 < sessionOrder01 false .fp2
    ∧ sessionOrder01 false .fp2 < sessionOrder01 false .qualifying
    ∧ sessionOrder01 false .qualifying < sessionOrder01 false .race := by
  refine ⟨?_, ?_, by decide, by decide, by decide, by decide, by decide, by decide, by decide⟩
  · intro videos
    unfold sortVideosInGroup01
    exact ⟨List.perm_insertionSort _ _, List.sorted_insertionSort _ _⟩
  · intro videos
    unfold sortVideosInGroup04
    exact ⟨List.perm_insertionSort _ _, List.sorted_insertionSort _ _⟩

theorem mapLookup_cons (k₁ : String) (v₁ : α) (rest : List (String × α)) (n : String) :
    mapLookup ((k₁, v₁) :: rest) n = if k₁ = n then some v₁ else mapLookup rest n := by
  by_cases h : k₁ = n <;> simp [mapLookup, List.find?_cons, h]

theorem mapLookup_mapSet (m : List (String × α)) (k n : String) (v : α) :
    mapLookup (mapSet m k v) n = if k = n then some v else mapLookup m n := by
  induction m with
  | nil =>
    simp only [mapSet, mapLookup_cons]
  | cons p rest ih =>
    obtain ⟨k₁, v₁⟩ := p
    simp only [mapSet]
    by_cases h1 : k₁ = k
    · rw [if_pos h1]
      subst h1
      rw [mapLookup_cons, mapLookup_cons]
      split_ifs <;> rfl
    · rw [if_neg h1, mapLookup_cons, ih, mapLookup_cons]
      split_ifs <;> simp_all

theorem mapLookup_isSome_iff (m : List (String × α)) (k : String) :
    (mapLookup m k).isSome ↔ k ∈ m.map (·.1) := by
  induction m with
  | nil => simp [mapLookup]
  | cons p rest ih =>
    obtain ⟨k₁, v₁⟩ := p
    rw [mapLookup_cons]
    by_cases h : k₁ = k
    · subst h; simp
    · simp only [List.map_cons, List.mem_cons]
      rw [if_neg h, ih]
      constructor
      · exact fun hm => Or.inr hm
      · rintro (heq | hm)
        · exact absurd heq.symm h
        · exact hm

theorem mapSet_absent (m : List (String × α)) (k : String) (v : α)
    (h : k ∉ m.map (·.1)) : mapSet m k v = m ++ [(k, v)] := by
  induction m with
  | nil => rfl
  | cons p rest ih =>
    obtain ⟨k₁, v₁⟩ := p
    simp only [List.map_cons, List.mem_cons] at h
    push_neg at h
    show (if k₁ = k then _ else _) = _
    rw [if_neg (fun hh => h.1 hh.symm), ih h.2]
    rfl

theorem dedupeGo_congr (vs : List Video) (s₁ s₂ : List String)
    (h : ∀ id, id ∈ s₁ ↔ id ∈ s₂) : dedupeGo s₁ vs = dedupeGo s₂ vs := by
  induction vs generalizing s₁ s₂ with
  | nil => rfl
  | cons v vs ih =>
    unfold dedupeGo
    by_cases hd : v.videoId = "" ∨ v.videoId ∈ s₁
    · rw [if_pos hd, if_pos (by rcases hd with hd | hd; exact Or.inl hd; exact Or.inr ((h _).mp hd))]
      exact ih s₁ s₂ h
    · rw [if_neg hd, if_neg (by rw [not_or] at hd ⊢; exact ⟨hd.1, fun hm => hd.2 ((h _).mpr hm)⟩)]
      rw [ih (v.videoId :: s₁) (v.videoId :: s₂) (by intro id; simp [h id])]

theorem dedupe_foldl_eq (vs : List Video) (m : List (String × Video)) :
    ((vs.foldl (fun uniqueMap v =>
        if v.videoId = "" then uniqueMap
        else if (mapLookup uniqueMap v.videoId).isSome then uniqueMap
        else mapSet uniqueMap v.videoId v) m).map (·.2))
      = m.map (·.2) ++ dedupeGo (m.map (·.1)) vs := by
  induction vs generalizing m with
  | nil => simp [dedupeGo]
  | cons v vs ih =>
    rw [List.foldl_cons]
    by_cases h1 : v.videoId = ""
    · rw [if_pos h1, ih, dedupeGo, if_pos (Or.inl h1)]
    · rw [if_neg h1]
      by_cases h2 : v.videoId ∈ m.map (·.1)
      · rw [if_pos ((mapLookup_isSome_iff m v.videoId).mpr h2), ih,
          dedupeGo, if_pos (Or.inr h2)]
      · rw [if_neg (by
            intro hs
            exact h2 ((mapLookup_isSome_iff m v.videoId).mp hs))]
        rw [mapSet_absent m v.videoId v h2, ih]
        rw [dedupeGo, if_neg (by rw [not_or]; exact ⟨h1, h2⟩)]
        simp only [List.map_append, List.map_cons, List.map_nil, List.append_assoc,
          List.cons_append, List.nil_append]
        congr 2
        exact dedupeGo_congr vs _ _ (by intro id; simp [or_comm])

theorem dedupeGo_length_le (seen : List String) (vs : List Video) :
    (dedupeGo seen vs).length ≤ vs.length := by
  induction vs generalizing seen with
  | nil => simp [dedupeGo]
  | cons v vs ih =>
    unfold dedupeGo
    split_ifs
    · exact Nat.le_trans (ih seen) (Nat.le_succ _)
    · simpa using ih (v.videoId :: seen)

theorem dedupeGo_length_eq_iff (seen : List String) (vs : List Video) :
    (dedupeGo seen vs).length = vs.length ↔
      ((vs.map (·.videoId)).Nodup ∧ ∀ v ∈ vs, v.videoId ≠ "" ∧ v.videoId ∉ seen) := by
  induction vs generalizing seen with
  | nil => simp [dedupeGo]
  | cons v vs ih =>
    unfold dedupeGo
    by_cases hd : v.videoId = "" ∨ v.videoId ∈ seen
    · rw [if_pos hd]
      constructor
      · intro hlen
        exfalso
        have hle := dedupeGo_length_le seen vs
        simp only [List.length_cons] at hlen
        omega
      · rintro ⟨-, hall⟩
        rcases hall v (by simp) with ⟨hne, hns⟩
        rcases hd with hd | hd
        · exact absurd hd hne
        · exact absurd hd hns
    · rw [if_neg hd]
      rw [not_or] at hd
      simp only [List.length_cons, Nat.add_right_cancel_iff, ih,
        List.map_cons, List.nodup_cons, List.mem_cons, List.mem_map]
      constructor
      · rintro ⟨hnd, hall⟩
        refine ⟨⟨?_, hnd⟩, ?_⟩
        · rintro ⟨u, hu, hid⟩
          exact (hall u hu).2 (by simp [hid])
        · rintro u (rfl | hu)
          · exact ⟨hd.1, hd.2⟩
          · rcases hall u hu with ⟨h1, h2⟩
            exact ⟨h1, fun hm => h2 (by simp [hm])⟩
      · rintro ⟨⟨hnv, hnd⟩, hall⟩
        refine ⟨hnd, ?_⟩
        intro u hu
        rcases hall u (Or.inr hu) with ⟨h1, h2⟩
        refine ⟨h1, ?_⟩
        rintro (heq | hm2)
        · exact hnv ⟨u, hu, heq⟩
        · exact h2 hm2

theorem dedupeGo_output_fresh (seen : List String) (vs : List Video) :
    ∀ r ∈ dedupeGo seen vs, r.videoId ≠ "" ∧ r.videoId ∉ seen := by
  induction vs generalizing seen with
  | nil => simp [dedupeGo]
  | cons v vs ih =>
    unfold dedupeGo
    split_ifs with hd
    · exact ih seen
    · rw [not_or] at hd
      intro r hr
      rcases List.mem_cons.mp hr with rfl | hr
      · exact ⟨hd.1, hd.2⟩
      · rcases ih (v.videoId :: seen) r hr with ⟨h1, h2⟩
        exact ⟨h1, fun hm => h2 (by simp [hm])⟩

theorem dedupeGo_output_nodup (seen : List String) (vs : List Video) :
    ((dedupeGo seen vs).map (·.videoId)).Nodup := by
  induction vs generalizing seen with
  | nil => simp [dedupeGo]
  | cons v vs ih =>
    unfold dedupeGo
    split_ifs with hd
    · exact ih seen
    · simp only [List.map_cons, List.nodup_cons, List.mem_map]
      refine ⟨?_, ih (v.videoId :: seen)⟩
      rintro ⟨u, hu, hid⟩
      exact (dedupeGo_output_fresh _ _ u hu).2 (by simp [hid])

theorem dedupeGo_keeps (seen : List String) (vs : List Video)
    (h1 : (vs.map (·.videoId)).Nodup)
    (h2 : ∀ v ∈ vs, v.videoId ≠ "" ∧ v.videoId ∉ seen) :
    dedupeGo seen vs = vs := by
  induction vs generalizing seen with
  | nil => rfl
  | cons v vs ih =>
    unfold dedupeGo
    rcases h2 v (by simp) with ⟨hne, hns⟩
    rw [if_neg (by rw [not_or]; exact ⟨hne, hns⟩)]
    simp only [List.map_cons, List.nodup_cons, List.mem_map] at h1
    congr 1
    refine ih (v.videoId :: seen) h1.2 ?_
    intro u hu
    rcases h2 u (List.mem_cons_of_mem _ hu) with ⟨hu1, hu2⟩
    refine ⟨hu1, ?_⟩
    simp only [List.mem_cons]
    rintro (heq | hm)
    · exact h1.1 ⟨u, hu, heq⟩
    · exact hu2 hm

theorem dedupeVideos_eq_go (x : List Video) : dedupeVideos x = dedupeGo [] x := by
  have h := dedupe_foldl_eq x []
  simpa [dedupeVideos] using h

/-- C9 counterexample: a single video whose videoId is the empty string
(falsy) has pairwise-distinct videoIds, yet dedupe drops it — the Map
fold skips falsy ids — so the length is 0, not 1: the claimed
equivalence between length preservation and id-distinctness fails. -/
theorem dedupe_length_iff_counterexample :
    ¬ (((dedupeVideos [⟨"", "Race Highlights | F1", "", some 0, ""⟩]).length
          = ([⟨"", "Race Highlights | F1", "", some 0, ""⟩] : List Video).length)
        ↔ (([⟨"", "Race Highlights | F1", "", some 0, ""⟩] : List Video).map
            (·.videoId)).Nodup) := by
  decide

/-- C9 amended: de-duplication by videoId (first-seen-wins) is idempotent
and never grows the list; the length is preserved exactly when all
videoIds are distinct AND every videoId is nonempty (truthy) — the fold
also drops items whose videoId is missing or empty. -/
theorem dedupe_props_amended (x : List Video) :
    dedupeVideos (dedupeVideos x) = dedupeVideos x
    ∧ (dedupeVideos x).length ≤ x.length
    ∧ ((dedupeVideos x).length = x.length ↔
        ((x.map (·.videoId)).Nodup ∧ ∀ v ∈ x, v.videoId ≠ "")) := by
  refine ⟨?_, ?_, ?_⟩
  · rw [dedupeVideos_eq_go, dedupeVideos_eq_go]
    exact dedupeGo_keeps [] _ (dedupeGo_output_nodup [] x)
      (fun v hv => ⟨(dedupeGo_output_fresh [] x v hv).1, by simp⟩)
  · rw [dedupeVideos_eq_go]
    exact dedupeGo_length_le [] x
  · rw [dedupeVideos_eq_go, dedupeGo_length_eq_iff]
    simp

theorem mapLookup_mem_values (m : List (String × α)) (k : String) (v : α)
    (h : mapLookup m k = some v) : v ∈ m.map (·.2) := by
  induction m with
  | nil => simp [mapLookup] at h
  | cons p rest ih =>
    obtain ⟨k₁, v₁⟩ := p
    rw [mapLookup_cons] at h
    by_cases hk : k₁ = k
    · rw [if_pos hk] at h
      simp [Option.some.inj h]
    · rw [if_neg hk] at h
      simp [ih h]

theorem addGp_lookup_ne (m : List (String × Weekend)) (gp : Weekend) (n : String)
    (h : gp.name ≠ n) : mapLookup (addGp m gp) n = mapLookup m n := by
  unfold addGp
  by_cases h0 : gp.name = ""
  · rw [if_pos h0]
  · rw [if_neg h0, mapLookup_mapSet, if_neg h]

theorem addGp_lookup_self (m : List (String × Weekend)) (gp : Weekend)
    (h : gp.name ≠ "") :
    mapLookup (addGp m gp) gp.name = some (mergeStep (mapLookup m gp.name) gp) := by
  unfold addGp
  rw [if_neg h, mapLookup_mapSet, if_pos rfl]

theorem foldl_addGp_no_match (gs : List Weekend) (m : List (String × Weekend))
    (n : String) (h : ∀ g ∈ gs, g.name ≠ n) :
    mapLookup (gs.foldl addGp m) n = mapLookup m n := by
  induction gs generalizing m with
  | nil => rfl
  | cons g gs ih =>
    rw [List.foldl_cons, ih _ (fun g' hg' => h g' (List.mem_cons_of_mem _ hg')),
      addGp_lookup_ne _ _ _ (h g (by simp))]

theorem foldl_addGp_single (gs : List Weekend) (m : List (String × Weekend))
    (n : String) (E : Weekend) (hn : n ≠ "")
    (hE : gs.filter (fun g => g.name == n) = [E]) :
    mapLookup (gs.foldl addGp m) n = some (mergeStep (mapLookup m n) E) := by
  induction gs generalizing m with
  | nil => simp at hE
  | cons g gs ih =>
    rw [List.foldl_cons]
    by_cases hg : g.name = n
    · rw [List.filter_cons, if_pos (by simp [hg])] at hE
      injection hE with h1 h2
      subst h1
      have hrest : ∀ g' ∈ gs, g'.name ≠ n := by
        intro g' hg' heq
        have hmem : g' ∈ gs.filter (fun g => g.name == n) :=
          List.mem_filter.mpr ⟨hg', by simp [heq]⟩
        rw [h2] at hmem
        exact absurd hmem (List.not_mem_nil g')
      rw [foldl_addGp_no_match gs _ n hrest, ← hg,
        addGp_lookup_self m g (by rw [hg]; exact hn)]
    · rw [List.filter_cons, if_neg (by simp [hg])] at hE
      rw [ih (addGp m g) hE, addGp_lookup_ne m g n hg]

theorem mergeStepVideos_append (base vs : List VideoRec)
    (h1 : (vs.map (·.videoId)).Nodup) (h2 : ∀ v ∈ vs, v.videoId ≠ "") :
    mergeStepVideos base vs
      = base ++ vs.filter (fun v => decide (v.videoId ∉ base.map (·.videoId))) := by
  induction vs generalizing base with
  | nil => simp [mergeStepVideos]
  | cons v vs ih =>
    unfold mergeStepVideos
    rw [List.foldl_cons]
    simp only [List.map_cons, List.nodup_cons, List.mem_map] at h1
    by_cases hmem : v.videoId ∈ base.map (·.videoId)
    · rw [if_neg (by
        rintro ⟨-, hall⟩
        rcases List.mem_map.mp hmem with ⟨w, hw, hid⟩
        exact hall w hw hid)]
      have := ih base h1.2 (fun u hu => h2 u (List.mem_cons_of_mem _ hu))
      unfold mergeStepVideos at this
      rw [this, List.filter_cons, if_neg (by simp [hmem])]
    · rw [if_pos ⟨h2 v (by simp), by
        intro w hw heq
        exact hmem (List.mem_map.mpr ⟨w, hw, heq⟩)⟩]
      have := ih (base ++ [v]) h1.2 (fun u hu => h2 u (List.mem_cons_of_mem _ hu))
      unfold mergeStepVideos at this
      rw [this, List.filter_cons, if_pos (by simp [hmem])]
      rw [List.append_assoc]
      congr 1
      rw [List.singleton_append]
      congr 1
      apply List.filter_congr
      intro u hu
      have hne : u.videoId ≠ v.videoId := fun heq => h1.1 ⟨u, hu, heq⟩
      simp [List.mem_append, hne]

theorem mergeStep_name (base? : Option Weekend) (gp : Weekend) :
    (mergeStep base? gp).name = (base?.getD ⟨gp.name, [], none⟩).name := by
  simp [mergeStep]

theorem mergeStep_videos (base? : Option Weekend) (gp : Weekend) :
    (mergeStep base? gp).videos
      = mergeStepVideos (base?.getD ⟨gp.name, [], none⟩).videos gp.videos := by
  simp [mergeStep]

theorem mergeStep_latestDate (base? : Option Weekend) (gp : Weekend) :
    (mergeStep base? gp).latestDate =
      match latestOf (mergeStepVideos (base?.getD ⟨gp.name, [], none⟩).videos gp.videos) with
      | some t => if t ≠ 0 then some t else (base?.getD ⟨gp.name, [], none⟩).latestDate
      | none => (base?.getD ⟨gp.name, [], none⟩).latestDate := by
  simp [mergeStep]

/-- C4 counterexample: merging a weekend whose only video was published
exactly at the epoch (publishedAt 1970-01-01T00:00:00.000Z, Date.parse 0)
with an incoming weekend of the same name and no videos. The maximum parsed
publishedAt over the merged list is 0, but `if (latest)` treats 0 as falsy,
so latestDate stays null instead of being recomputed to the maximum. -/
theorem mergeArchives_epoch_counterexample :
    mergeArchives
        [⟨"2025 Brazilian Grand Prix",
          [⟨"vidE", "Race Highlights | F1", "", some 0, ""⟩], none⟩]
        [⟨"2025 Brazilian Grand Prix", [], none⟩]
      = [⟨"2025 Brazilian Grand Prix",
          [⟨"vidE", "Race Highlights | F1", "", some 0, ""⟩], none⟩]
    ∧ latestOf [⟨"vidE", "Race Highlights | F1", "", some 0, ""⟩] = some 0 := by
  refine ⟨by decide, by decide⟩

/-- C4 amended: for every pair of weekend lists each containing exactly one
weekend named n (with internally id-unique, truthy-id video lists),
mergeArchives produces a weekend named n whose videos are the existing
videos followed by the incoming videos whose videoId is not already
present, and whose latestDate is the maximum parsed publishedAt over the
merged list whenever that maximum exists and is nonzero (the `if (latest)`
truthiness check keeps the prior value when the maximum is the epoch 0 or
when no video has a parseable date). -/
theorem mergeArchives_shared_name_merge
    (existing incoming : List Weekend) (n : String) (E I : Weekend) (t : Int)
    (hn : n ≠ "")
    (hE : existing.filter (fun g => g.name == n) = [E])
    (hI : incoming.filter (fun g => g.name == n) = [I])
    (hEid : (E.videos.map (·.videoId)).Nodup)
    (hEne : ∀ v ∈ E.videos, v.videoId ≠ "")
    (hIid : (I.videos.map (·.videoId)).Nodup)
    (hIne : ∀ v ∈ I.videos, v.videoId ≠ "")
    (hmax : latestOf (E.videos ++ I.videos.filter
        (fun v => decide (v.videoId ∉ E.videos.map (·.videoId)))) = some t)
    (ht : t ≠ 0) :
    ∃ g ∈ mergeArchives existing incoming,
      g.name = n
      ∧ g.videos = E.videos ++ I.videos.filter
          (fun v => decide (v.videoId ∉ E.videos.map (·.videoId)))
      ∧ g.latestDate = some t := by
  have hEn : E.name = n := by
    have hmem : E ∈ existing.filter (fun g => g.name == n) := by rw [hE]; simp
    have := (List.mem_filter.mp hmem).2
    simpa using this
  have hg₁v : (mergeStep none E).videos = E.videos := by
    rw [mergeStep_videos]
    simp only [Option.getD_none]
    rw [mergeStepVideos_append [] E.videos hEid hEne]
    simp
  have hg₁n : (mergeStep none E).name = E.name := by
    rw [mergeStep_name]
    simp [Option.getD_none]
  have hg₂v : (mergeStep (some (mergeStep none E)) I).videos
      = E.videos ++ I.videos.filter
          (fun v => decide (v.videoId ∉ E.videos.map (·.videoId))) := by
    rw [mergeStep_videos]
    simp only [Option.getD_some]
    rw [hg₁v, mergeStepVideos_append E.videos I.videos hIid hIne]
  have hg₂n : (mergeStep (some (mergeStep none E)) I).name = n := by
    rw [mergeStep_name]
    simp only [Option.getD_some]
    rw [hg₁n, hEn]
  have hg₂d : (mergeStep (some (mergeStep none E)) I).latestDate = some t := by
    rw [mergeStep_latestDate]
    simp only [Option.getD_some]
    rw [hg₁v, mergeStepVideos_append E.videos I.videos hIid hIne, hmax]
    simp [ht]
  have hm₁ : mapLookup (existing.foldl addGp []) n = some (mergeStep none E) := by
    have h := foldl_addGp_single existing [] n E hn hE
    rw [h]
    rfl
  have hm₂ : mapLookup (incoming.foldl addGp (existing.foldl addGp [])) n
      = some (mergeStep (some (mergeStep none E)) I) := by
    rw [foldl_addGp_single incoming _ n I hn hI, hm₁]
  refine ⟨mergeStep (some (mergeStep none E)) I, ?_, hg₂n, hg₂v, hg₂d⟩
  unfold mergeArchives
  rw [List.foldl_append]
  rw [List.mem_insertionSort]
  exact mapLookup_mem_values _ n _ hm₂

theorem mergeArchives_shared_name_merge_witness :
    ∃ g ∈ mergeArchives
        [⟨"2025 Monaco Grand Prix",
          [⟨"vidA", "FP1 Highlights | 2025 Monaco Grand Prix", "", some 1747990800000, ""⟩],
          none⟩]
        [⟨"2025 Monaco Grand Prix",
          [⟨"vidA", "FP1 Highlights | 2025 Monaco Grand Prix", "", some 1747990800000, ""⟩,
           ⟨"vidB", "Race Highlights | 2025 Monaco Grand Prix", "", some 1748196000000, ""⟩],
          some 1748196000000⟩],
      g.name = "2025 Monaco Grand Prix"
      ∧ g.videos =
          [⟨"vidA", "FP1 Highlights | 2025 Monaco Grand Prix", "", some 1747990800000, ""⟩]
          ++ [⟨"vidA", "FP1 Highlights | 2025 Monaco Grand Prix", "", some 1747990800000, ""⟩,
              ⟨"vidB", "Race Highlights | 2025 Monaco Grand Prix", "", some 1748196000000, ""⟩].filter
              (fun v => decide (v.videoId ∉
                ([⟨"vidA", "FP1 Highlights | 2025 Monaco Grand Prix", "", some 1747990800000, ""⟩]
                  : List VideoRec).map (·.videoId)))
      ∧ g.latestDate = some 1748196000000 :=
  mergeArchives_shared_name_merge _ _ "2025 Monaco Grand Prix"
    ⟨"2025 Monaco Grand Prix",
      [⟨"vidA", "FP1 Highlights | 2025 Monaco Grand Prix", "", some 1747990800000, ""⟩],
      none⟩
    ⟨"2025 Monaco Grand Prix",
      [⟨"vidA", "FP1 Highlights | 2025 Monaco Grand Prix", "", some 1747990800000, ""⟩,
       ⟨"vidB", "Race Highlights | 2025 Monaco Grand Prix", "", some 1748196000000, ""⟩],
      some 1748196000000⟩
    1748196000000
    (by decide) (by decide) (by decide) (by decide) (by decide) (by decide) (by decide)
    (by decide) (by decide)

theorem mapSet_mem_or (m : List (String × α)) (k : String) (v : α) (p : String × α)
    (h : p ∈ mapSet m k v) : p ∈ m ∨ p = (k, v) := by
  induction m with
  | nil =>
    simp only [mapSet, List.mem_singleton] at h
    exact Or.inr h
  | cons q rest ih =>
    obtain ⟨k₁, v₁⟩ := q
    simp only [mapSet] at h
    by_cases hk : k₁ = k
    · rw [if_pos hk] at h
      rcases List.mem_cons.mp h with rfl | hm
      · exact Or.inr rfl
      · exact Or.inl (List.mem_cons_of_mem _ hm)
    · rw [if_neg hk] at h
      rcases List.mem_cons.mp h with rfl | hm
      · exact Or.inl (List.mem_cons_self _ _)
      · rcases ih hm with hm | hm
        · exact Or.inl (List.mem_cons_of_mem _ hm)
        · exact Or.inr hm

theorem mapLookup_mem_pair (m : List (String × α)) (k : String) (v : α)
    (h : mapLookup m k = some v) : (k, v) ∈ m := by
  induction m with
  | nil => simp [mapLookup] at h
  | cons p rest ih =>
    obtain ⟨k₁, v₁⟩ := p
    rw [mapLookup_cons] at h
    by_cases hk : k₁ = k
    · rw [if_pos hk] at h
      obtain rfl : v₁ = v := Option.some.inj h
      subst hk
      exact List.mem_cons_self _ _
    · rw [if_neg hk] at h
      exact List.mem_cons_of_mem _ (ih h)

theorem mem_foldl_mapSet {β : Type} (f : β → String) (g : β → α) (ws : List β)
    (m : List (String × α)) (p : String × α)
    (h : p ∈ ws.foldl (fun acc w => mapSet acc (f w) (g w)) m) :
    p ∈ m ∨ ∃ w ∈ ws, p = (f w, g w) := by
  induction ws generalizing m with
  | nil => exact Or.inl h
  | cons w ws ih =>
    rw [List.foldl_cons] at h
    rcases ih _ h with hm | ⟨w', hw', rfl⟩
    · rcases mapSet_mem_or _ _ _ _ hm with h1 | h1
      · exact Or.inl h1
      · exact Or.inr ⟨w, by simp, h1⟩
    · exact Or.inr ⟨w', List.mem_cons_of_mem _ hw', rfl⟩

theorem mapLookup_foldl_mapSet_isSome {β : Type} (f : β → String) (g : β → α)
    (ws : List β) (m : List (String × α)) (k : String)
    (h : (mapLookup m k).isSome = true ∨ k ∈ ws.map f) :
    (mapLookup (ws.foldl (fun acc w => mapSet acc (f w) (g w)) m) k).isSome = true := by
  induction ws generalizing m with
  | nil =>
    rcases h with h | h
    · exact h
    · simp at h
  | cons w ws ih =>
    rw [List.foldl_cons]
    apply ih
    by_cases hk : f w = k
    · left
      rw [mapLookup_mapSet, if_pos hk]
      rfl
    · rcases h with h | h
      · left
        rw [mapLookup_mapSet, if_neg hk]
        exact h
      · rcases List.mem_cons.mp (List.map_cons f w ws ▸ h) with heq | hm
        · exact absurd heq.symm hk
        · exact Or.inr hm

theorem mapLookup_map_snd (f : α → β) (m : List (String × α)) (k : String) :
    mapLookup (m.map (fun kv => (kv.1, f kv.2))) k = (mapLookup m k).map f := by
  induction m with
  | nil => rfl
  | cons p rest ih =>
    obtain ⟨k₁, v₁⟩ := p
    simp only [List.map_cons]
    rw [mapLookup_cons, mapLookup_cons]
    by_cases hk : k₁ = k
    · rw [if_pos hk, if_pos hk]
      rfl
    · rw [if_neg hk, if_neg hk, ih]

theorem string_append_left_cancel (p : String) : Function.Injective (fun s => p ++ s) := by
  intro a b h
  have hd : (p ++ a).data = (p ++ b).data := congrArg String.data h
  rw [String.data_append, String.data_append] at hd
  have hab : a.data = b.data := List.append_cancel_left hd
  cases a
  cases b
  exact congrArg String.mk (by simpa using hab)

theorem pushRecord_name (group : Weekend) (ts : Int) (r : VideoRec) :
    (pushRecord group ts r).name = group.name := by
  simp [pushRecord]

theorem pushRecord_videos (group : Weekend) (ts : Int) (r : VideoRec) :
    (pushRecord group ts r).videos = group.videos ++ [r] := by
  simp [pushRecord]

theorem GInv_init (weekends : List WeekendWindow) :
    GInv weekends [] (initialState weekends) := by
  unfold initialState
  refine ⟨?_, ?_, ?_, ?_, ?_⟩
  · intro p hp
    rcases mem_foldl_mapSet (fun (w : WeekendWindow) => w.name)
        (fun w => (⟨w.name, [], none⟩ : Weekend)) _ _ _ hp with h | ⟨w, hw, rfl⟩
    · simp at h
    · rfl
  · intro w hw
    exact mapLookup_foldl_mapSet_isSome _ _ _ _ _
      (Or.inr (List.mem_map.mpr ⟨w, hw, rfl⟩))
  · intro w hw
    exact mapLookup_foldl_mapSet_isSome _ _ _ _ _
      (Or.inr (List.mem_map.mpr ⟨w, hw, rfl⟩))
  · intro p hp r hr
    rcases mem_foldl_mapSet (fun (w : WeekendWindow) => w.name)
        (fun w => (⟨w.name, [], none⟩ : Weekend)) _ _ _ hp with h | ⟨w, hw, rfl⟩
    · simp at h
    · simp at hr
  · intro q hq id hid
    rcases mem_foldl_mapSet (fun (w : WeekendWindow) => w.name)
        (fun _ => ([] : List String)) _ _ _ hq with h | ⟨w, hw, rfl⟩
    · simp at h
    · simp at hid

theorem GInv_append (weekends : List WeekendWindow) (processed more : List Video)
    (st : GroupingState) (h : GInv weekends processed st) :
    GInv weekends (processed ++ more) st := by
  obtain ⟨h1, h2, h3, h4, h5⟩ := h
  refine ⟨h1, h2, h3, ?_, ?_⟩
  · intro p hp r hr
    obtain ⟨u, hu, rest⟩ := h4 p hp r hr
    exact ⟨u, List.mem_append_left _ hu, rest⟩
  · intro q hq id hid
    obtain ⟨u, hu, rest⟩ := h5 q hq id hid
    exact ⟨u, List.mem_append_left _ hu, rest⟩

theorem GInv_push (weekends : List WeekendWindow) (processed : List Video)
    (st : GroupingState) (u : Video) (ts : Int) (weekend : WeekendWindow)
    (group : Weekend) (seen' : List (String × List String))
    (hinv : GInv weekends processed st)
    (hts : u.publishedAt = some ts)
    (hfind : weekends.find? (fun w2 => inWindow w2 ts) = some weekend)
    (hgroup : mapLookup st.byName weekend.name = some group)
    (hseen' : seen' = st.seen
      ∨ ∃ seenSet, mapLookup st.seen weekend.name = some seenSet
          ∧ seen' = mapSet st.seen weekend.name (seenSet ++ [u.videoId])) :
    GInv weekends (processed ++ [u])
      ⟨mapSet st.byName weekend.name (pushRecord group ts (mkRec u)), seen'⟩ := by
  obtain ⟨h1, h2, h3, h4, h5⟩ := hinv
  have hgname : group.name = weekend.name :=
    h1 (weekend.name, group) (mapLookup_mem_pair _ _ _ hgroup)
  refine ⟨?_, ?_, ?_, ?_, ?_⟩
  · intro p hp
    rcases mapSet_mem_or _ _ _ _ hp with hm | rfl
    · exact h1 p hm
    · show (pushRecord group ts (mkRec u)).name = weekend.name
      rw [pushRecord_name, hgname]
  · intro w hw
    show (mapLookup (mapSet st.byName weekend.name _) w.name).isSome = true
    rw [mapLookup_mapSet]
    split_ifs with hh
    · rfl
    · exact h2 w hw
  · intro w hw
    rcases hseen' with rfl | ⟨seenSet, hss, rfl⟩
    · exact h3 w hw
    · show (mapLookup (mapSet st.seen weekend.name _) w.name).isSome = true
      rw [mapLookup_mapSet]
      split_ifs with hh
      · rfl
      · exact h3 w hw
  · intro p hp r hr
    rcases mapSet_mem_or _ _ _ _ hp with hm | rfl
    · obtain ⟨u', hu', rest⟩ := h4 p hm r hr
      exact ⟨u', List.mem_append_left _ hu', rest⟩
    · rw [pushRecord_videos] at hr
      rcases List.mem_append.mp hr with hr' | hr'
      · have hpmem : (weekend.name, group) ∈ st.byName :=
          mapLookup_mem_pair _ _ _ hgroup
        obtain ⟨u', hu', rest⟩ := h4 _ hpmem r hr'
        exact ⟨u', List.mem_append_left _ hu', rest⟩
      · obtain rfl : r = mkRec u := List.mem_singleton.mp hr'
        exact ⟨u, List.mem_append_right _ (by simp), rfl, ts, hts, weekend, hfind, rfl⟩
  · intro q hq id hid
    rcases hseen' with rfl | ⟨seenSet, hss, rfl⟩
    · obtain ⟨u', hu', rest⟩ := h5 q hq id hid
      exact ⟨u', List.mem_append_left _ hu', rest⟩
    · rcases mapSet_mem_or _ _ _ _ hq with hm | rfl
      · obtain ⟨u', hu', rest⟩ := h5 q hm id hid
        exact ⟨u', List.mem_append_left _ hu', rest⟩
      · rcases List.mem_append.mp hid with hid' | hid'
        · have hqmem : (weekend.name, seenSet) ∈ st.seen :=
            mapLookup_mem_pair _ _ _ hss
          obtain ⟨u', hu', rest⟩ := h5 _ hqmem id hid'
          exact ⟨u', List.mem_append_left _ hu', rest⟩
        · obtain rfl : id = u.videoId := List.mem_singleton.mp hid'
          exact ⟨u, List.mem_append_right _ (by simp), rfl⟩

theorem GInv_step (weekends : List WeekendWindow) (processed : List Video)
    (st : GroupingState) (u : Video) (hinv : GInv weekends processed st) :
    GInv weekends (processed ++ [u]) (processVideo weekends st u) := by
  cases hts : u.publishedAt with
  | none =>
    unfold processVideo
    simp only [hts]
    exact GInv_append _ _ _ _ hinv
  | some ts =>
    cases hfind : weekends.find? (fun w => inWindow w ts) with
    | none =>
      unfold processVideo
      simp only [hts, hfind]
      exact GInv_append _ _ _ _ hinv
    | some weekend =>
      cases hgroup : mapLookup st.byName weekend.name with
      | none =>
        unfold processVideo
        simp only [hts, hfind, hgroup]
        exact GInv_append _ _ _ _ hinv
      | some group =>
        by_cases hid : u.videoId = ""
        · unfold processVideo
          simp only [hts, hfind, hgroup, if_pos hid]
          exact GInv_append _ _ _ _ hinv
        · cases hseen : mapLookup st.seen weekend.name with
          | some seenSet =>
            by_cases hmem : u.videoId ∈ seenSet
            · unfold processVideo
              simp only [hts, hfind, hgroup, hseen]
              rw [if_neg hid, if_pos hmem]
              exact GInv_append _ _ _ _ hinv
            · unfold processVideo
              simp only [hts, hfind, hgroup, hseen]
              rw [if_neg hid, if_neg hmem]
              exact GInv_push weekends processed st u ts weekend group _
                hinv hts hfind hgroup (Or.inr ⟨seenSet, hseen, rfl⟩)
          | none =>
            unfold processVideo
            simp only [hts, hfind, hgroup, hseen]
            rw [if_neg hid]
            exact GInv_push weekends processed st u ts weekend group _
              hinv hts hfind hgroup (Or.inl rfl)

theorem GInv_foldl (weekends : List WeekendWindow) (vids processed : List Video)
    (st : GroupingState) (hinv : GInv weekends processed st) :
    GInv weekends (processed ++ vids) (vids.foldl (processVideo weekends) st) := by
  induction vids generalizing processed st with
  | nil => simpa using hinv
  | cons v vids ih =>
    rw [List.foldl_cons]
    have h2 := ih (processed ++ [v]) _ (GInv_step weekends processed st v hinv)
    simpa [List.append_assoc] using h2

theorem bucketOf_mono_step (weekends : List WeekendWindow) (st : GroupingState)
    (u : Video) (k : String) (r : VideoRec) (h : r ∈ bucketOf st k) :
    r ∈ bucketOf (processVideo weekends st u) k := by
  cases hts : u.publishedAt with
  | none =>
    unfold processVideo
    simp only [hts]
    exact h
  | some ts =>
    cases hfind : weekends.find? (fun w => inWindow w ts) with
    | none =>
      unfold processVideo
      simp only [hts, hfind]
      exact h
    | some weekend =>
      cases hgroup : mapLookup st.byName weekend.name with
      | none =>
        unfold processVideo
        simp only [hts, hfind, hgroup]
        exact h
      | some group =>
        have hpush : ∀ s' : List (String × List String),
            r ∈ bucketOf
              ⟨mapSet st.byName weekend.name (pushRecord group ts (mkRec u)), s'⟩ k := by
          intro s'
          unfold bucketOf at h ⊢
          rw [mapLookup_mapSet]
          by_cases hk : weekend.name = k
          · rw [if_pos hk]
            rw [← hk, hgroup] at h
            simp only [Option.getD_some] at h ⊢
            rw [pushRecord_videos]
            exact List.mem_append_left _ h
          · rw [if_neg hk]
            exact h
        by_cases hid : u.videoId = ""
        · unfold processVideo
          simp only [hts, hfind, hgroup, if_pos hid]
          exact h
        · cases hseen : mapLookup st.seen weekend.name with
          | some seenSet =>
            by_cases hmem : u.videoId ∈ seenSet
            · unfold processVideo
              simp only [hts, hfind, hgroup, hseen]
              rw [if_neg hid, if_pos hmem]
              exact h
            · unfold processVideo
              simp only [hts, hfind, hgroup, hseen]
              rw [if_neg hid, if_neg hmem]
              exact hpush _
          | none =>
            unfold processVideo
            simp only [hts, hfind, hgroup, hseen]
            rw [if_neg hid]
            exact hpush _

theorem bucketOf_mono_foldl (weekends : List WeekendWindow) (vids : List Video)
    (st : GroupingState) (k : String) (r : VideoRec) (h : r ∈ bucketOf st k) :
    r ∈ bucketOf (vids.foldl (processVideo weekends) st) k := by
  induction vids generalizing st with
  | nil => exact h
  | cons v vids ih =>
    rw [List.foldl_cons]
    exact ih _ (bucketOf_mono_step weekends st v k r h)

theorem processVideo_pushes (weekends : List WeekendWindow) (processed : List Video)
    (st : GroupingState) (u : Video) (ts : Int) (weekend : WeekendWindow)
    (hinv : GInv weekends processed st)
    (hts : u.publishedAt = some ts)
    (hfind : weekends.find? (fun w2 => inWindow w2 ts) = some weekend)
    (hid : u.videoId ≠ "")
    (hfresh : ∀ u' ∈ processed, u'.videoId ≠ u.videoId) :
    mkRec u ∈ bucketOf (processVideo weekends st u) weekend.name := by
  obtain ⟨h1, h2, h3, h4, h5⟩ := hinv
  have hw : weekend ∈ weekends := List.mem_of_find?_eq_some hfind
  obtain ⟨group, hgroup⟩ := Option.isSome_iff_exists.mp (h2 weekend hw)
  obtain ⟨seenSet, hseen⟩ := Option.isSome_iff_exists.mp (h3 weekend hw)
  have hmem : u.videoId ∉ seenSet := by
    intro hmem
    obtain ⟨u', hu', hid'⟩ := h5 _ (mapLookup_mem_pair _ _ _ hseen) _ hmem
    exact hfresh u' hu' hid'
  unfold processVideo
  simp only [hts, hfind, hgroup, hseen]
  rw [if_neg hid, if_neg hmem]
  unfold bucketOf
  rw [mapLookup_mapSet, if_pos rfl]
  simp only [Option.getD_some]
  rw [pushRecord_videos]
  exact List.mem_append_right _ (by simp)

theorem GInv_final (weekends : List WeekendWindow) (videos : List Video) :
    GInv weekends videos (finalState weekends videos) := by
  have h := GInv_foldl weekends videos [] (initialState weekends) (GInv_init weekends)
  simpa [finalState] using h

theorem groupVideosByCalendarWindow_out (cfg : WindowConfig) (videos : List Video)
    (calendarEntries : List CalendarEntry) :
    groupVideosByCalendarWindow cfg videos calendarEntries
      = (buildWeekendWindows cfg calendarEntries 2025).map (fun w =>
          ((mapLookup
              (finalState (buildWeekendWindows cfg calendarEntries 2025) videos).byName
              w.name).map sortGroup).getD
            ⟨w.name, [], none⟩) := by
  unfold groupVideosByCalendarWindow
  simp only [mapLookup_map_snd]

/-- C3: with distinct calendar entry names, calendar-window grouping
returns exactly one bucket per calendar weekend, named "2025 {name}", in
calendar order (zero-video weekends included as empty buckets), and the
record of a video whose timestamp lies in no weekend window (or does not
parse) appears in no output bucket. -/
theorem calendarWindow_exact_names_and_drops (cfg : WindowConfig) (videos : List Video)
    (calendarEntries : List CalendarEntry)
    (hnodup : (calendarEntries.map (·.name)).Nodup) :
    ((groupVideosByCalendarWindow cfg videos calendarEntries).map (·.name)
        = calendarEntries.map (fun e => "2025 " ++ e.name))
    ∧ ((groupVideosByCalendarWindow cfg videos calendarEntries).map (·.name)).Nodup
    ∧ ∀ v ∈ videos,
        (∀ w ∈ buildWeekendWindows cfg calendarEntries 2025,
          ∀ ts, v.publishedAt = some ts → inWindow w ts = false) →
        ∀ g ∈ groupVideosByCalendarWindow cfg videos calendarEntries,
          mkRec v ∉ g.videos := by
  obtain ⟨h1, h2, h3, h4, h5⟩ :=
    GInv_final (buildWeekendWindows cfg calendarEntries 2025) videos
  have hname : ∀ w ∈ buildWeekendWindows cfg calendarEntries 2025,
      (((mapLookup
          (finalState (buildWeekendWindows cfg calendarEntries 2025) videos).byName
          w.name).map sortGroup).getD
        ⟨w.name, [], none⟩).name = w.name := by
    intro w hw
    cases hlk : mapLookup
        (finalState (buildWeekendWindows cfg calendarEntries 2025) videos).byName
        w.name with
    | none => rfl
    | some fg =>
      have hn := h1 (w.name, fg) (mapLookup_mem_pair _ _ _ hlk)
      simpa [sortGroup] using hn
  have hmap : (groupVideosByCalendarWindow cfg videos calendarEntries).map (·.name)
      = calendarEntries.map (fun e => "2025 " ++ e.name) := by
    rw [groupVideosByCalendarWindow_out, List.map_map]
    simp only [Function.comp_def]
    rw [List.map_congr_left (fun w hw => hname w hw)]
    unfold buildWeekendWindows
    rw [List.map_map]
    simp only [Function.comp_def]
    apply List.map_congr_left
    intro e _
    show toString 2025 ++ " " ++ e.name = "2025 " ++ e.name
    have hpre : (toString 2025 ++ " " : String) = "2025 " := by decide
    rw [hpre]
  refine ⟨hmap, ?_, ?_⟩
  · rw [hmap]
    have heq : calendarEntries.map (fun e => "2025 " ++ e.name)
        = (calendarEntries.map (·.name)).map (fun s => "2025 " ++ s) := by
      rw [List.map_map]
      rfl
    rw [heq]
    exact hnodup.map (string_append_left_cancel "2025 ")
  · intro v hv habs g hg hrmem
    rw [groupVideosByCalendarWindow_out] at hg
    obtain ⟨w₂, hw₂, rfl⟩ := List.mem_map.mp hg
    cases hlk : mapLookup
        (finalState (buildWeekendWindows cfg calendarEntries 2025) videos).byName
        w₂.name with
    | none =>
      rw [hlk] at hrmem
      simp at hrmem
    | some fg =>
      rw [hlk] at hrmem
      simp only [Option.map_some', Option.getD_some] at hrmem
      have hmem2 : mkRec v ∈ fg.videos := by
        have hx : mkRec v ∈ sortVideosInGroup fg.videos := by
          simpa [sortGroup] using hrmem
        unfold sortVideosInGroup at hx
        rwa [List.mem_insertionSort] at hx
      obtain ⟨u, hu, hrec, ts, hts, w₃, hfind₃, hw₃name⟩ :=
        h4 (w₂.name, fg) (mapLookup_mem_pair _ _ _ hlk) _ hmem2
      have hpub : v.publishedAt = some ts := by
        have hfield : (mkRec v).publishedAt = (mkRec u).publishedAt :=
          congrArg VideoRec.publishedAt hrec
        simpa [mkRec, hts] using hfield
      have hw₃ : w₃ ∈ buildWeekendWindows cfg calendarEntries 2025 :=
        List.mem_of_find?_eq_some hfind₃
      have hwin : inWindow w₃ ts = true := by
        simpa using List.find?_some hfind₃
      rw [habs w₃ hw₃ ts hpub] at hwin
      cases hwin

/-- C10: when a (truthy-id, id-unique-in-batch) video's parsed timestamp
lies inside the window of at least one calendar weekend — in particular
when it lies in two or more overlapping windows — calendar-window grouping
files it under the FIRST such weekend in calendar order (the find? result),
and no bucket with a different name contains any record with its videoId,
so the video is never duplicated across weekends in one grouping pass. -/
theorem calendarWindow_overlap_first_only (cfg : WindowConfig) (videos : List Video)
    (calendarEntries : List CalendarEntry) (v : Video) (ts : Int) (w : WeekendWindow)
    (hnodupIds : (videos.map (·.videoId)).Nodup)
    (hv : v ∈ videos)
    (hid : v.videoId ≠ "")
    (hts : v.publishedAt = some ts)
    (hfind : (buildWeekendWindows cfg calendarEntries 2025).find?
        (fun w2 => inWindow w2 ts) = some w) :
    ∃ g ∈ groupVideosByCalendarWindow cfg videos calendarEntries,
      g.name = w.name
      ∧ (∃ r ∈ g.videos, r.videoId = v.videoId)
      ∧ ∀ g' ∈ groupVideosByCalendarWindow cfg videos calendarEntries,
          g'.name ≠ w.name → ∀ r ∈ g'.videos, r.videoId ≠ v.videoId := by
  obtain ⟨pre, post, hsplit⟩ := List.append_of_mem hv
  subst hsplit
  have hfresh : ∀ u' ∈ pre, u'.videoId ≠ v.videoId := by
    intro u' hu' heq
    have hmem : v.videoId ∈ pre.map (·.videoId) := List.mem_map.mpr ⟨u', hu', heq⟩
    have hnd := hnodupIds
    rw [List.map_append] at hnd
    exact (List.nodup_append.mp hnd).2.2 hmem (by simp)
  have hinv₁ := GInv_foldl (buildWeekendWindows cfg calendarEntries 2025) pre []
    (initialState (buildWeekendWindows cfg calendarEntries 2025))
    (GInv_init (buildWeekendWindows cfg calendarEntries 2025))
  rw [List.nil_append] at hinv₁
  have hpush := processVideo_pushes (buildWeekendWindows cfg calendarEntries 2025) pre
    _ v ts w hinv₁ hts hfind hid hfresh
  have hstF : finalState (buildWeekendWindows cfg calendarEntries 2025) (pre ++ v :: post)
      = post.foldl (processVideo (buildWeekendWindows cfg calendarEntries 2025))
          (processVideo (buildWeekendWindows cfg calendarEntries 2025)
            (pre.foldl (processVideo (buildWeekendWindows cfg calendarEntries 2025))
              (initialState (buildWeekendWindows cfg calendarEntries 2025))) v) := by
    unfold finalState
    rw [List.foldl_append, List.foldl_cons]
  have hbucket : mkRec v ∈ bucketOf
      (finalState (buildWeekendWindows cfg calendarEntries 2025) (pre ++ v :: post))
      w.name := by
    rw [hstF]
    exact bucketOf_mono_foldl _ post _ _ _ hpush
  obtain ⟨h1, h2, h3, h4, h5⟩ :=
    GInv_final (buildWeekendWindows cfg calendarEntries 2025) (pre ++ v :: post)
  have hw : w ∈ buildWeekendWindows cfg calendarEntries 2025 :=
    List.mem_of_find?_eq_some hfind
  obtain ⟨fg, hfg⟩ := Option.isSome_iff_exists.mp (h2 w hw)
  rw [groupVideosByCalendarWindow_out]
  refine ⟨_, List.mem_map.mpr ⟨w, hw, rfl⟩, ?_, ?_, ?_⟩
  · rw [hfg]
    simp only [Option.map_some', Option.getD_some]
    simpa [sortGroup] using h1 (w.name, fg) (mapLookup_mem_pair _ _ _ hfg)
  · rw [hfg]
    simp only [Option.map_some', Option.getD_some]
    refine ⟨mkRec v, ?_, rfl⟩
    have hb : bucketOf
        (finalState (buildWeekendWindows cfg calendarEntries 2025) (pre ++ v :: post))
        w.name = fg.videos := by
      unfold bucketOf
      rw [hfg]
      rfl
    rw [hb] at hbucket
    show mkRec v ∈ (sortGroup fg).videos
    simp only [sortGroup]
    unfold sortVideosInGroup
    rw [List.mem_insertionSort]
    exact hbucket
  · intro g' hg' hne r hr heqid
    obtain ⟨w₂, hw₂, hgeq⟩ := List.mem_map.mp hg'
    subst hgeq
    cases hlk : mapLookup
        (finalState (buildWeekendWindows cfg calendarEntries 2025) (pre ++ v :: post)).byName
        w₂.name with
    | none =>
      rw [hlk] at hr
      simp at hr
    | some fg₂ =>
      rw [hlk] at hr hne
      simp only [Option.map_some', Option.getD_some] at hr hne
      have hr2 : r ∈ fg₂.videos := by
        have hx : r ∈ sortVideosInGroup fg₂.videos := by
          simpa [sortGroup] using hr
        unfold sortVideosInGroup at hx
        rwa [List.mem_insertionSort] at hx
      obtain ⟨u, hu, hrec, ts', hts', w₃, hfind₃, hw₃name⟩ :=
        h4 (w₂.name, fg₂) (mapLookup_mem_pair _ _ _ hlk) r hr2
      have huid : u.videoId = v.videoId := by
        have hfield : r.videoId = u.videoId := by rw [hrec]; rfl
        rw [← hfield, heqid]
      have huv : u = v := List.inj_on_of_nodup_map hnodupIds hu hv huid
      rw [huv, hts] at hts'
      have htseq : ts = ts' := Option.some.inj hts'
      rw [← htseq, hfind] at hfind₃
      have hww : w = w₃ := Option.some.inj hfind₃
      have hname₂ : fg₂.name = w₂.name :=
        h1 (w₂.name, fg₂) (mapLookup_mem_pair _ _ _ hlk)
      have hw₃n : w₃.name = w₂.name := hw₃name
      apply hne
      show (sortGroup fg₂).name = w.name
      simp only [sortGroup]
      rw [hname₂, ← hw₃n, ← hww]

theorem calendarWindow_exact_names_and_drops_witness :
    ((groupVideosByCalendarWindow ⟨-1, 3⟩
        [⟨"vidZ", "Race Highlights | F1", "", some 500, ""⟩]
        [⟨"Monaco Grand Prix", 1748000000000⟩,
         ⟨"Spanish Grand Prix", 1749000000000⟩]).map (·.name)
      = ["2025 Monaco Grand Prix", "2025 Spanish Grand Prix"])
    ∧ ∀ g ∈ groupVideosByCalendarWindow ⟨-1, 3⟩
        [⟨"vidZ", "Race Highlights | F1", "", some 500, ""⟩]
        [⟨"Monaco Grand Prix", 1748000000000⟩,
         ⟨"Spanish Grand Prix", 1749000000000⟩],
      mkRec ⟨"vidZ", "Race Highlights | F1", "", some 500, ""⟩ ∉ g.videos := by
  have h := calendarWindow_exact_names_and_drops ⟨-1, 3⟩
      [⟨"vidZ", "Race Highlights | F1", "", some 500, ""⟩]
      [⟨"Monaco Grand Prix", 1748000000000⟩,
       ⟨"Spanish Grand Prix", 1749000000000⟩]
      (by decide)
  refine ⟨by rw [h.1]; rfl, ?_⟩
  refine h.2.2 _ (by decide) ?_
  intro w hw ts hts
  obtain rfl : (500 : Int) = ts := Option.some.inj hts
  fin_cases hw <;> decide

theorem calendarWindow_overlap_first_only_witness :
    ∃ g ∈ groupVideosByCalendarWindow ⟨-1, 3⟩
        [⟨"vid1", "Race Highlights | F1", "", some 100, ""⟩]
        [⟨"A GP", 0⟩, ⟨"B GP", 86400000⟩],
      g.name = (⟨"2025 A GP", 0, -86400000, 259200000⟩ : WeekendWindow).name
      ∧ (∃ r ∈ g.videos,
          r.videoId = (⟨"vid1", "Race Highlights | F1", "", some 100, ""⟩ : Video).videoId)
      ∧ ∀ g' ∈ groupVideosByCalendarWindow ⟨-1, 3⟩
          [⟨"vid1", "Race Highlights | F1", "", some 100, ""⟩]
          [⟨"A GP", 0⟩, ⟨"B GP", 86400000⟩],
          g'.name ≠ (⟨"2025 A GP", 0, -86400000, 259200000⟩ : WeekendWindow).name →
          ∀ r ∈ g'.videos,
            r.videoId ≠ (⟨"vid1", "Race Highlights | F1", "", some 100, ""⟩ : Video).videoId :=
  calendarWindow_overlap_first_only ⟨-1, 3⟩
    [⟨"vid1", "Race Highlights | F1", "", some 100, ""⟩]
    [⟨"A GP", 0⟩, ⟨"B GP", 86400000⟩]
    ⟨"vid1", "Race Highlights | F1", "", some 100, ""⟩ 100
    ⟨"2025 A GP", 0, -86400000, 259200000⟩
    (by decide) (by decide) (by decide) (by decide) (by decide)

end F1
